import Mathlib

/- Verification development for the cheburcheck repository.

   The passive classifier (src/lists.rs), the checker orchestration
   (querying/src/lib.rs), and the active prober state machine
   (reporter/src/main.rs, reporter/src/resolver.rs) are embedded as
   executable Lean definitions, and the specification claims about them
   are settled as theorems below the definitions. -/

/- ===== IP addresses and networks (model of ipnet::IpNet and the
   ipnet_trie::IpnetTrie used by src/lists.rs) =====

   An address is its full bit string; the bit-string length plays the
   role of the address family width (32 for IPv4, 128 for IPv6).
   A network is the bit string of its routing mask together with the
   family width; a network covers an address of the same family whose
   bits start with the mask bits.  IpnetTrie::insert overwrites the
   value stored at an equal network, and lookups walk the trie from the
   most specific match; the trie is modelled as the insertion sequence
   (most recent first) with lookups scanning for the longest covering
   mask and preferring the most recently inserted entry on equal keys. -/

abbrev Addr := List Bool

structure IpNet where
  bits : List Bool
  width : Nat
  deriving DecidableEq

def netCovers (n : IpNet) (a : Addr) : Bool :=
  n.width == a.length && n.bits.isPrefixOf a

/- Model of IpnetTrie::longest_match(&IpNet::from(*ip)): the stored
   entry with the longest mask covering the address, if any. -/
def longestMatch {α : Type} (a : Addr) : List (IpNet × α) → Option (IpNet × α)
  | [] => none
  | e :: rest =>
    if netCovers e.1 a then
      match longestMatch a rest with
      | none => some e
      | some b => if e.1.bits.length < b.1.bits.length then some b else some e
    else
      longestMatch a rest

theorem longestMatch_eq_none {α : Type} (a : Addr) (l : List (IpNet × α)) :
    longestMatch a l = none ↔ ∀ e ∈ l, netCovers e.1 a = false := by
  induction l with
  | nil => simp [longestMatch]
  | cons e rest ih =>
    by_cases hc : netCovers e.1 a
    · simp only [longestMatch, hc, if_pos]
      constructor
      · intro h
        cases hr : longestMatch a rest with
        | none => simp [hr] at h
        | some b => rw [hr] at h; by_cases hlt : e.1.bits.length < b.1.bits.length <;> simp [hlt] at h
      · intro h
        have := h e (by simp)
        rw [hc] at this
        cases this
    · simp only [longestMatch, hc, if_neg, Bool.not_eq_true]
      rw [ih]
      constructor
      · intro h
        intro b hb
        rcases List.mem_cons.mp hb with hb | hb
        · subst hb; exact Bool.not_eq_true _ ▸ (by simpa using hc)
        · exact h b hb
      · intro h b hb
        exact h b (List.mem_cons_of_mem _ hb)

theorem longestMatch_eq_some {α : Type} (a : Addr) (l : List (IpNet × α))
    (e : IpNet × α) (h : longestMatch a l = some e) :
    e ∈ l ∧ netCovers e.1 a = true ∧
      ∀ b ∈ l, netCovers b.1 a = true → b.1.bits.length ≤ e.1.bits.length := by
  induction l generalizing e with
  | nil => simp [longestMatch] at h
  | cons hd rest ih =>
    by_cases hc : netCovers hd.1 a
    · rw [longestMatch, if_pos hc] at h
      cases hr : longestMatch a rest with
      | none =>
        rw [hr] at h
        cases h
        refine ⟨by simp, hc, ?_⟩
        intro b hb hcov
        rcases List.mem_cons.mp hb with hb | hb
        · subst hb; exact Nat.le_refl _
        · have := (longestMatch_eq_none a rest).mp hr b hb
          rw [hcov] at this
          cases this
      | some b0 =>
        rw [hr] at h
        dsimp only at h
        obtain ⟨hb0mem, hb0cov, hb0max⟩ := ih b0 hr
        by_cases hlt : hd.1.bits.length < b0.1.bits.length
        · rw [if_pos hlt] at h
          cases h
          refine ⟨List.mem_cons_of_mem _ hb0mem, hb0cov, ?_⟩
          intro b hb hcov
          rcases List.mem_cons.mp hb with hb | hb
          · subst hb; omega
          · exact hb0max b hb hcov
        · rw [if_neg hlt] at h
          cases h
          refine ⟨by simp, hc, ?_⟩
          intro b hb hcov
          rcases List.mem_cons.mp hb with hb | hb
          · subst hb; exact Nat.le_refl _
          · have := hb0max b hb hcov
            omega
    · rw [longestMatch, if_neg hc] at h
      obtain ⟨hmem, hcov, hmax⟩ := ih e h
      refine ⟨List.mem_cons_of_mem _ hmem, hcov, ?_⟩
      intro b hb hbcov
      rcases List.mem_cons.mp hb with hb | hb
      · subst hb; rw [hbcov] at hc; cases hc rfl
      · exact hmax b hb hbcov

/- ===== CdnList (src/lists.rs, CdnList) =====

   CdnList::update parses CSV rows into NetworkRecord values, inserts
   each into a freshly built trie, and assigns the new trie to the live
   field only after every row parsed; a row that fails to deserialize
   aborts the whole update with an error, leaving the live trie alone.
   Rows are modelled already-deserialized, with `none` standing for a
   row on which csv deserialization fails. -/

structure NetworkRecord where
  provider : String
  cidr : IpNet
  region : Option String
  deriving DecidableEq

structure CdnList where
  trie : List (IpNet × NetworkRecord)
  deriving DecidableEq

/- Sequences the fallible per-row results: the Rust loops stop at the
   first erroneous line/row and propagate its error. -/
def seqOpts {β : Type} : List (Option β) → Option (List β)
  | [] => some []
  | none :: _ => none
  | some b :: rest => (seqOpts rest).map (fun bs => b :: bs)

def cdnTrieOf (recs : List NetworkRecord) : List (IpNet × NetworkRecord) :=
  recs.foldl (fun t r => (r.cidr, r) :: t) []

def CdnList.update (st : CdnList) (rows : List (Option NetworkRecord)) : CdnList × Bool :=
  match seqOpts rows with
  | none => (st, false)
  | some recs => (⟨cdnTrieOf recs⟩, true)

def CdnList.contains (st : CdnList) (a : Addr) : Option NetworkRecord :=
  (longestMatch a st.trie).map (fun e => e.2)

theorem seqOpts_map_some {β : Type} (l : List β) : seqOpts (l.map some) = some l := by
  induction l with
  | nil => rfl
  | cons b rest ih => simp [seqOpts, ih]

theorem foldl_cons_rev {β γ : Type} (f : β → γ) (l : List β) :
    ∀ (init : List γ),
      l.foldl (fun t r => f r :: t) init = (l.map f).reverse ++ init := by
  induction l with
  | nil => intro init; simp
  | cons x xs ih =>
    intro init
    simp only [List.foldl_cons, List.map_cons, List.reverse_cons, List.append_assoc]
    rw [ih]
    simp

theorem mem_cdnTrieOf (recs : List NetworkRecord) (p : IpNet × NetworkRecord) :
    p ∈ cdnTrieOf recs ↔ p.2 ∈ recs ∧ p.1 = p.2.cidr := by
  unfold cdnTrieOf
  rw [foldl_cons_rev]
  simp only [List.append_nil, List.mem_reverse, List.mem_map]
  constructor
  · rintro ⟨r, hr, heq⟩
    cases p
    cases heq
    exact ⟨hr, rfl⟩
  · rintro ⟨hmem, heq⟩
    refine ⟨p.2, hmem, ?_⟩
    cases p
    simp_all

/-- C2: for every set of CIDR ranges loaded into CdnList via update and every
address a, contains a returns a loaded record whose network covers a and is
the most specific (longest mask) among the loaded networks covering a, and
returns none exactly when no loaded network covers a. -/
theorem cdn_contains_longest_match (st0 : CdnList) (recs : List NetworkRecord) (a : Addr) :
    ((CdnList.update st0 (recs.map some)).1.contains a = none ↔
      ∀ r ∈ recs, netCovers r.cidr a = false)
    ∧ ∀ v, (CdnList.update st0 (recs.map some)).1.contains a = some v →
        v ∈ recs ∧ netCovers v.cidr a = true ∧
          ∀ r ∈ recs, netCovers r.cidr a = true → r.cidr.bits.length ≤ v.cidr.bits.length := by
  have hupd : (CdnList.update st0 (recs.map some)).1 = ⟨cdnTrieOf recs⟩ := by
    unfold CdnList.update
    rw [seqOpts_map_some]
  rw [hupd]
  have hnone : (CdnList.mk (cdnTrieOf recs)).contains a = none ↔
      longestMatch a (cdnTrieOf recs) = none := by
    unfold CdnList.contains
    cases longestMatch a (cdnTrieOf recs) <;> simp
  constructor
  · rw [hnone, longestMatch_eq_none]
    constructor
    · intro h r hr
      exact h (r.cidr, r) ((mem_cdnTrieOf recs (r.cidr, r)).mpr ⟨hr, rfl⟩)
    · intro h e he
      obtain ⟨hmem, heq⟩ := (mem_cdnTrieOf recs e).mp he
      rw [heq]
      exact h e.2 hmem
  · intro v hv
    unfold CdnList.contains at hv
    cases hlm : longestMatch a (CdnList.mk (cdnTrieOf recs)).trie with
    | none => rw [hlm] at hv; cases hv
    | some e =>
      rw [hlm] at hv
      cases hv
      obtain ⟨hmem, hcov, hmax⟩ := longestMatch_eq_some a _ e hlm
      obtain ⟨hrec, hkey⟩ := (mem_cdnTrieOf recs e).mp hmem
      rw [hkey] at hcov hmax
      refine ⟨hrec, hcov, ?_⟩
      intro r hr hrcov
      exact hmax (r.cidr, r) ((mem_cdnTrieOf recs (r.cidr, r)).mpr ⟨hr, rfl⟩) hrcov

def c2RecA : NetworkRecord := ⟨"A", ⟨[true], 2⟩, none⟩

def c2RecB : NetworkRecord := ⟨"B", ⟨[true, true], 2⟩, none⟩

/-- C2 witness: a concrete overlapping pair of networks; the characterization
holds at the address covered by both. -/
theorem cdn_contains_longest_match_witness :
    ((CdnList.update ⟨[]⟩ ([c2RecA, c2RecB].map some)).1.contains [true, true] = none ↔
      ∀ r ∈ [c2RecA, c2RecB], netCovers r.cidr [true, true] = false)
    ∧ ∀ v, (CdnList.update ⟨[]⟩ ([c2RecA, c2RecB].map some)).1.contains [true, true] = some v →
        v ∈ [c2RecA, c2RecB] ∧ netCovers v.cidr [true, true] = true ∧
          ∀ r ∈ [c2RecA, c2RecB], netCovers r.cidr [true, true] = true →
            r.cidr.bits.length ≤ v.cidr.bits.length :=
  cdn_contains_longest_match ⟨[]⟩ [c2RecA, c2RecB] [true, true]

/- ===== RuBlacklist (src/lists.rs, RuBlacklist) =====

   The domain trie is keyed by the reversed label sequence of each
   domain (domain_chunks: split on the dot, then reverse), with the
   original domain string as the stored value.  contains_domain runs
   trie_rs common_prefix_search on the query chunks and takes the first
   hit; the traversal yields stored keys that are prefixes of the query
   in order of increasing key length, modelled here as a scan keeping
   the shortest matching key (the most recently inserted on equal keys).

   RuBlacklist::update builds a fresh IP trie from the network lines and
   assigns it to the live field, then parses the domain lines; only
   after every domain line is read does it store the new count and the
   freshly built domain trie.  A line standing at `none` models a line
   whose read or parse fails. -/

def splitLabelsAux : List Char → List Char → List (List Char)
  | [], cur => [cur.reverse]
  | c :: rest, cur =>
    if c = '.' then cur.reverse :: splitLabelsAux rest [] else splitLabelsAux rest (c :: cur)

/- Model of RuBlacklist::domain_chunks: split on "." and reverse. -/
def domainChunks (d : String) : List (List Char) :=
  (splitLabelsAux d.data []).reverse

structure RuBlacklist where
  ipTrie : List (IpNet × Unit)
  domainTrie : List (List (List Char) × String)
  domainCount : Nat
  deriving DecidableEq

def ipTrieOf (nets : List IpNet) : List (IpNet × Unit) :=
  nets.foldl (fun t n => (n, ()) :: t) []

def domainTrieOf (domains : List String) : List (List (List Char) × String) :=
  domains.foldl (fun t d => (domainChunks d, d) :: t) []

def RuBlacklist.update (st : RuBlacklist) (ipLines : List (Option IpNet))
    (domainLines : List (Option String)) : RuBlacklist × Bool :=
  match seqOpts ipLines with
  | none => (st, false)
  | some nets =>
    match seqOpts domainLines with
    | none => (⟨ipTrieOf nets, st.domainTrie, st.domainCount⟩, false)
    | some doms => (⟨ipTrieOf nets, domainTrieOf doms, doms.length⟩, true)

def RuBlacklist.containsIp (st : RuBlacklist) (a : Addr) : Option IpNet :=
  (longestMatch a st.ipTrie).map (fun e => e.1)

/- Model of trie_rs common_prefix_search followed by .next(): the entry
   whose key is a prefix of the query and is reached first (shortest). -/
def firstAncestor {α : Type} (q : List (List Char)) :
    List (List (List Char) × α) → Option (List (List Char) × α)
  | [] => none
  | e :: rest =>
    if e.1.isPrefixOf q then
      match firstAncestor q rest with
      | none => some e
      | some b => if b.1.length < e.1.length then some b else some e
    else
      firstAncestor q rest

def RuBlacklist.containsDomain (st : RuBlacklist) (d : String) : Option String :=
  (firstAncestor (domainChunks d) st.domainTrie).map (fun e => e.2)

theorem firstAncestor_eq_none {α : Type} (q : List (List Char))
    (l : List (List (List Char) × α)) :
    firstAncestor q l = none ↔ ∀ e ∈ l, e.1.isPrefixOf q = false := by
  induction l with
  | nil => simp [firstAncestor]
  | cons e rest ih =>
    by_cases hc : e.1.isPrefixOf q
    · simp only [firstAncestor, hc, if_pos]
      constructor
      · intro h
        cases hr : firstAncestor q rest with
        | none => simp [hr] at h
        | some b => rw [hr] at h; by_cases hlt : b.1.length < e.1.length <;> simp [hlt] at h
      · intro h
        have := h e (by simp)
        rw [hc] at this
        cases this
    · simp only [firstAncestor, hc, if_neg, Bool.not_eq_true]
      rw [ih]
      constructor
      · intro h b hb
        rcases List.mem_cons.mp hb with hb | hb
        · subst hb; exact Bool.eq_false_iff.mpr hc
        · exact h b hb
      · intro h b hb
        exact h b (List.mem_cons_of_mem _ hb)

theorem firstAncestor_eq_some {α : Type} (q : List (List Char))
    (l : List (List (List Char) × α)) (e : List (List Char) × α)
    (h : firstAncestor q l = some e) :
    e ∈ l ∧ e.1.isPrefixOf q = true := by
  induction l generalizing e with
  | nil => simp [firstAncestor] at h
  | cons hd rest ih =>
    by_cases hc : hd.1.isPrefixOf q
    · rw [firstAncestor, if_pos hc] at h
      cases hr : firstAncestor q rest with
      | none =>
        rw [hr] at h
        cases h
        exact ⟨by simp, hc⟩
      | some b0 =>
        rw [hr] at h
        dsimp only at h
        obtain ⟨hb0mem, hb0pre⟩ := ih b0 hr
        by_cases hlt : b0.1.length < hd.1.length
        · rw [if_pos hlt] at h
          cases h
          exact ⟨List.mem_cons_of_mem _ hb0mem, hb0pre⟩
        · rw [if_neg hlt] at h
          cases h
          exact ⟨by simp, hc⟩
    · rw [firstAncestor, if_neg hc] at h
      obtain ⟨hmem, hpre⟩ := ih e h
      exact ⟨List.mem_cons_of_mem _ hmem, hpre⟩

theorem mem_domainTrieOf (domains : List String) (p : List (List Char) × String) :
    p ∈ domainTrieOf domains ↔ p.2 ∈ domains ∧ p.1 = domainChunks p.2 := by
  unfold domainTrieOf
  rw [foldl_cons_rev]
  simp only [List.append_nil, List.mem_reverse, List.mem_map]
  constructor
  · rintro ⟨d, hd, heq⟩
    cases p
    cases heq
    exact ⟨hd, rfl⟩
  · rintro ⟨hmem, heq⟩
    refine ⟨p.2, hmem, ?_⟩
    cases p
    simp_all

/-- C3: contains_domain returns Some exactly when the query equals or is a
label-wise subdomain of some loaded entry (the stored reversed label chunks
of an entry are a prefix of the query chunks, equivalently the entry label
sequence is a suffix of the query label sequence), the returned value is such
an entry, and on the concrete scenario with entry "example.com" the query
"sub.example.com" yields Some "example.com" while "notexample.com" yields
none. -/
theorem contains_domain_iff_ancestor (st0 : RuBlacklist) (domains : List String) (d : String) :
    ((RuBlacklist.update st0 [] (domains.map some)).1.containsDomain d = none ↔
      ∀ e ∈ domains, (domainChunks e).isPrefixOf (domainChunks d) = false)
    ∧ (∀ x, (RuBlacklist.update st0 [] (domains.map some)).1.containsDomain d = some x →
        x ∈ domains ∧ (domainChunks x).isPrefixOf (domainChunks d) = true)
    ∧ (∀ e : String, (domainChunks e).isPrefixOf (domainChunks d) = true ↔
        splitLabelsAux e.data [] <:+ splitLabelsAux d.data [])
    ∧ (RuBlacklist.update st0 [] [some "example.com"]).1.containsDomain "sub.example.com"
        = some "example.com"
    ∧ (RuBlacklist.update st0 [] [some "example.com"]).1.containsDomain "notexample.com"
        = none := by
  have hupd : (RuBlacklist.update st0 [] (domains.map some)).1 =
      ⟨ipTrieOf [], domainTrieOf domains, domains.length⟩ := by
    unfold RuBlacklist.update
    rw [show seqOpts ([] : List (Option IpNet)) = some [] from rfl, seqOpts_map_some]
  refine ⟨?_, ?_, ?_, rfl, rfl⟩
  · rw [hupd]
    have hcd : (RuBlacklist.mk (ipTrieOf []) (domainTrieOf domains) domains.length).containsDomain d
        = none ↔ firstAncestor (domainChunks d) (domainTrieOf domains) = none := by
      unfold RuBlacklist.containsDomain
      cases firstAncestor (domainChunks d) (domainTrieOf domains) <;> simp
    rw [hcd, firstAncestor_eq_none]
    constructor
    · intro h e he
      exact h (domainChunks e, e) ((mem_domainTrieOf domains (domainChunks e, e)).mpr ⟨he, rfl⟩)
    · intro h e he
      obtain ⟨hmem, heq⟩ := (mem_domainTrieOf domains e).mp he
      rw [heq]
      exact h e.2 hmem
  · intro x hx
    rw [hupd] at hx
    unfold RuBlacklist.containsDomain at hx
    cases hfa : firstAncestor (domainChunks d)
        (RuBlacklist.mk (ipTrieOf []) (domainTrieOf domains) domains.length).domainTrie with
    | none => rw [hfa] at hx; cases hx
    | some e =>
      rw [hfa] at hx
      cases hx
      obtain ⟨hmem, hpre⟩ := firstAncestor_eq_some _ _ e hfa
      obtain ⟨hdom, hkey⟩ := (mem_domainTrieOf domains e).mp hmem
      rw [hkey] at hpre
      exact ⟨hdom, hpre⟩
  · intro e
    rw [List.isPrefixOf_iff_prefix]
    unfold domainChunks
    exact List.reverse_prefix

/-- C3 witness: the theorem instantiated at the concrete blacklist
["example.com"], giving the two scenario equalities. -/
theorem contains_domain_iff_ancestor_witness :
    (RuBlacklist.update ⟨[], [], 0⟩ [] [some "example.com"]).1.containsDomain "sub.example.com"
        = some "example.com" ∧
    (RuBlacklist.update ⟨[], [], 0⟩ [] [some "example.com"]).1.containsDomain "notexample.com"
        = none :=
  ⟨(contains_domain_iff_ancestor ⟨[], [], 0⟩ ["example.com"] "sub.example.com").2.2.2.1,
   (contains_domain_iff_ancestor ⟨[], [], 0⟩ ["example.com"] "notexample.com").2.2.2.2⟩

/- ===== Active prober (reporter/src/main.rs, check_target and main) =====

   check_target loops over attempts, numbered from 1 (`attempts += 1` at
   the top of the loop).  Each attempt either obtains a response
   (an HTTP status plus a fully read body) or fails at the transport
   level; a transport failure carries `early = true` when send() itself
   failed (no response was received at all) and `early = false` when the
   response arrived but reading the body failed.  The network behaviour
   of attempt n is modelled by `outcomes n`; `Failure.timeout` models
   reqwest is_timeout and `Failure.isConnect` models is_connect on the
   propagated error. -/

structure Failure where
  timeout : Bool
  early : Bool
  isConnect : Bool
  deriving DecidableEq

inductive ProbeOutcome
  | response (success : Bool) (len : Nat)
  | failure (f : Failure)
  deriving DecidableEq

/- Rust check_target returns Result<Verdict, reqwest::Error>; `fail f`
   models Err(e) propagated to the caller. -/
inductive ProbeResult
  | accepted
  | blocked (early : Bool)
  | fail (f : Failure)
  deriving DecidableEq

inductive Evidence
  | ok
  | blocked
  | connectError
  | error
  deriving DecidableEq

/- The loop of check_target, together with the number of the attempt on
   which it returned.  A response is accepted only when the status is a
   success and at least 65535 bytes were read; otherwise, and on any
   transport failure, the loop retries while attempts < retry_count. -/
def checkTargetLoop (retryCount : Nat) (outcomes : Nat → ProbeOutcome)
    (attempts : Nat) : ProbeResult × Nat :=
  match outcomes (attempts + 1) with
  | .response success len =>
    if success = false ∨ len < 65535 then
      if h : attempts + 1 < retryCount then
        checkTargetLoop retryCount outcomes (attempts + 1)
      else
        (.blocked false, attempts + 1)
    else
      (.accepted, attempts + 1)
  | .failure f =>
    if h : attempts + 1 < retryCount then
      checkTargetLoop retryCount outcomes (attempts + 1)
    else if f.timeout then
      (.blocked f.early, attempts + 1)
    else
      (.fail f, attempts + 1)
termination_by retryCount - attempts
decreasing_by
  all_goals omega

def checkTarget (retryCount : Nat) (outcomes : Nat → ProbeOutcome) : ProbeResult × Nat :=
  checkTargetLoop retryCount outcomes 0

/- Model of the result collection in main: Accepted tallies Ok, Blocked
   tallies Blocked, a propagated error tallies ConnectError when
   e.is_connect() and Error otherwise. -/
def collectEvidence : ProbeResult → Evidence
  | .accepted => .ok
  | .blocked _ => .blocked
  | .fail f => if f.isConnect then .connectError else .error

theorem checkTargetLoop_step (retryCount : Nat) (outcomes : Nat → ProbeOutcome) (attempts : Nat) :
    checkTargetLoop retryCount outcomes attempts =
      match outcomes (attempts + 1) with
      | .response success len =>
        if success = false ∨ len < 65535 then
          if attempts + 1 < retryCount then checkTargetLoop retryCount outcomes (attempts + 1)
          else (.blocked false, attempts + 1)
        else (.accepted, attempts + 1)
      | .failure f =>
        if attempts + 1 < retryCount then checkTargetLoop retryCount outcomes (attempts + 1)
        else if f.timeout then (.blocked f.early, attempts + 1)
        else (.fail f, attempts + 1) := by
  rw [checkTargetLoop.eq_def]
  cases outcomes (attempts + 1) <;> simp

/-- C4: on an attempt that obtains a response, a success status together with
at least 65535 received bytes classifies Accepted; a failed condition with
attempts below the retry budget retries; a failed condition on the final
attempt classifies Blocked with early = false. -/
theorem response_attempt_classification (retryCount : Nat) (outcomes : Nat → ProbeOutcome)
    (attempts : Nat) (success : Bool) (len : Nat)
    (hout : outcomes (attempts + 1) = .response success len) :
    (success = true ∧ 65535 ≤ len →
      checkTargetLoop retryCount outcomes attempts = (.accepted, attempts + 1))
    ∧ (¬(success = true ∧ 65535 ≤ len) → attempts + 1 < retryCount →
      checkTargetLoop retryCount outcomes attempts = checkTargetLoop retryCount outcomes (attempts + 1))
    ∧ (¬(success = true ∧ 65535 ≤ len) → ¬(attempts + 1 < retryCount) →
      checkTargetLoop retryCount outcomes attempts = (.blocked false, attempts + 1)) := by
  have hiff : (success = false ∨ len < 65535) ↔ ¬(success = true ∧ 65535 ≤ len) := by
    cases success <;> simp
  have hstep := checkTargetLoop_step retryCount outcomes attempts
  rw [hout] at hstep
  dsimp only at hstep
  refine ⟨?_, ?_, ?_⟩
  · intro hacc
    rw [hstep, if_neg (fun hc => (hiff.mp hc) hacc)]
  · intro hcond hlt
    rw [hstep, if_pos (hiff.mpr hcond), if_pos hlt]
  · intro hcond hlt
    rw [hstep, if_pos (hiff.mpr hcond), if_neg hlt]

/-- C4 witness: a response with success status and 70000 bytes on the first
attempt is classified Accepted. -/
theorem response_attempt_classification_witness :
    checkTargetLoop 2 (fun _ => ProbeOutcome.response true 70000) 0 = (.accepted, 1) :=
  (response_attempt_classification 2 (fun _ => .response true 70000) 0 true 70000 rfl).1
    ⟨rfl, by omega⟩

theorem checkTargetLoop_all_failures (retryCount : Nat) (fs : Nat → Failure) :
    ∀ (fuel attempts : Nat), retryCount - attempts ≤ fuel →
      checkTargetLoop retryCount (fun n => .failure (fs n)) attempts =
        (if (fs (max retryCount (attempts + 1))).timeout
         then (.blocked (fs (max retryCount (attempts + 1))).early, max retryCount (attempts + 1))
         else (.fail (fs (max retryCount (attempts + 1))), max retryCount (attempts + 1))) := by
  intro fuel
  induction fuel with
  | zero =>
    intro attempts h
    rw [checkTargetLoop_step]
    dsimp only
    have hmax : max retryCount (attempts + 1) = attempts + 1 := by omega
    rw [if_neg (by omega : ¬(attempts + 1 < retryCount)), hmax]
  | succ n ih =>
    intro attempts h
    by_cases hlt : attempts + 1 < retryCount
    · rw [checkTargetLoop_step]
      dsimp only
      rw [if_pos hlt, ih (attempts + 1) (by omega)]
      have hmax : max retryCount (attempts + 1 + 1) = max retryCount (attempts + 1) := by omega
      rw [hmax]
    · rw [checkTargetLoop_step]
      dsimp only
      have hmax : max retryCount (attempts + 1) = attempts + 1 := by omega
      rw [if_neg hlt, hmax]

/-- C5: when every attempt fails at the transport level, the terminal attempt
is number max(retry_count, 1); a terminal timeout resolves to Blocked whose
early flag is the terminal failure's before-any-response flag, any other
terminal failure is propagated as an error rather than Blocked, and the
caller tallies a propagated error as ConnectError exactly when it is a
connection-phase error and as Error otherwise. -/
theorem transport_failure_classification (retryCount : Nat) (fs : Nat → Failure) :
    checkTarget retryCount (fun n => .failure (fs n)) =
      (if (fs (max retryCount 1)).timeout
       then (.blocked (fs (max retryCount 1)).early, max retryCount 1)
       else (.fail (fs (max retryCount 1)), max retryCount 1))
    ∧ collectEvidence (.fail (fs (max retryCount 1))) =
        (if (fs (max retryCount 1)).isConnect then .connectError else .error) := by
  constructor
  · unfold checkTarget
    exact checkTargetLoop_all_failures retryCount fs retryCount 0 (by omega)
  · rfl

theorem checkTargetLoop_bounds (retryCount : Nat) (outcomes : Nat → ProbeOutcome) :
    ∀ (fuel attempts : Nat), retryCount - attempts ≤ fuel →
      attempts + 1 ≤ (checkTargetLoop retryCount outcomes attempts).2 ∧
      (checkTargetLoop retryCount outcomes attempts).2 ≤ max retryCount (attempts + 1) := by
  intro fuel
  induction fuel with
  | zero =>
    intro attempts h
    rw [checkTargetLoop_step]
    cases outcomes (attempts + 1) with
    | response success len =>
      dsimp only
      split
      · rw [if_neg (by omega : ¬(attempts + 1 < retryCount))]
        constructor <;> simp
      · constructor <;> simp
    | failure f =>
      dsimp only
      rw [if_neg (by omega : ¬(attempts + 1 < retryCount))]
      split
      · constructor <;> simp
      · constructor <;> simp
  | succ n ih =>
    intro attempts h
    rw [checkTargetLoop_step]
    cases outcomes (attempts + 1) with
    | response success len =>
      dsimp only
      split
      · by_cases hlt : attempts + 1 < retryCount
        · rw [if_pos hlt]
          have := ih (attempts + 1) (by omega)
          omega
        · rw [if_neg hlt]
          constructor <;> simp
      · constructor <;> simp
    | failure f =>
      dsimp only
      by_cases hlt : attempts + 1 < retryCount
      · rw [if_pos hlt]
        have := ih (attempts + 1) (by omega)
        omega
      · rw [if_neg hlt]
        split
        · constructor <;> simp
        · constructor <;> simp

/-- C10: check_target always performs at least one attempt and terminates
after at most max(retry_count, 1) attempts; a retry budget of 0 still yields
exactly one attempt. -/
theorem check_target_attempt_bounds (retryCount : Nat) (outcomes : Nat → ProbeOutcome) :
    1 ≤ (checkTarget retryCount outcomes).2 ∧
    (checkTarget retryCount outcomes).2 ≤ max retryCount 1 ∧
    (checkTarget 0 outcomes).2 = 1 := by
  have h1 := checkTargetLoop_bounds retryCount outcomes retryCount 0 (by omega)
  have h2 := checkTargetLoop_bounds 0 outcomes 0 0 (by omega)
  unfold checkTarget
  refine ⟨by omega, by omega, by omega⟩

/- ===== Per-attempt client read timeout (reporter/src/main.rs) =====

   build_client sets the read timeout to timeout_secs * attempt seconds,
   but the only call site inside the check_target loop is
   build_client(&args, 1): it passes the constant 1 for the attempt
   multiplier regardless of the current value of `attempts`. -/

def buildClientReadTimeout (timeoutSecs attempt : Nat) : Nat :=
  timeoutSecs * attempt

def checkTargetClientReadTimeout (timeoutSecs attempt : Nat) : Nat :=
  buildClientReadTimeout timeoutSecs 1

/-- C8: every attempt builds the client with the same read timeout of
timeout_secs * 1 seconds; the timeout does not escalate with the attempt
number because the call site passes the constant 1. -/
theorem read_timeout_constant (t a b : Nat) :
    checkTargetClientReadTimeout t a = checkTargetClientReadTimeout t b ∧
    checkTargetClientReadTimeout t a = t := by
  constructor
  · rfl
  · unfold checkTargetClientReadTimeout buildClientReadTimeout
    omega

/- ===== Prober DNS resolver (reporter/src/resolver.rs) =====

   Resolver::new(ip) stores SocketAddr::new(ip, 0); Resolve::resolve
   ignores the requested name and yields exactly that one address. -/

abbrev SocketAddr := Addr × Nat

structure ProbeResolver where
  ip : SocketAddr

def ProbeResolver.new (ip : Addr) : ProbeResolver := ⟨(ip, 0)⟩

def ProbeResolver.resolve (r : ProbeResolver) (name : String) : List SocketAddr :=
  [r.ip]

/-- C9: the prober's resolver returns the same single fixed vantage address
(the configured IP with port 0) for every hostname; the output is
independent of the requested name. -/
theorem resolve_fixed_vantage (ip : Addr) (n1 n2 : String) :
    (ProbeResolver.new ip).resolve n1 = (ProbeResolver.new ip).resolve n2 ∧
    (ProbeResolver.new ip).resolve n1 = [(ip, 0)] :=
  ⟨rfl, rfl⟩

/- ===== Checker (querying/src/lib.rs) =====

   The resolver's DNS behaviour for a name is modelled by a function
   String → DnsOutcome; hickory reports an empty answer as a
   no-records-found error kind.  Resolver::lookup_ips maps a
   no-records-found error to ResolveError::NxDomain and any other
   resolver failure to ResolveError::Other (querying/src/resolver.rs).
   The geo lookup of an address is modelled as a function returning
   Except Unit γ, where an error models a MaxMindDbError from a
   reader.  The HashMap/HashSet accumulators of Checker::check are
   modelled as the sequences of matches they are built from; a hash
   collection is empty exactly when its insertion sequence is empty. -/

inductive DnsOutcome
  | records (ips : List Addr)
  | noRecords
  | otherFailure
  deriving DecidableEq

inductive ResolveErr
  | nxDomain
  | other
  deriving DecidableEq

inductive CheckErr
  | resolveError (e : ResolveErr)
  | geoIpError
  | notFound
  deriving DecidableEq

inductive Target
  | domain (d : String)
  | ipv4 (a : Addr)
  | ipv6 (a : Addr)
  deriving DecidableEq

def lookupIps (dns : String → DnsOutcome) (d : String) : Except ResolveErr (List Addr) :=
  match dns d with
  | .records ips => .ok ips
  | .noRecords => .error .nxDomain
  | .otherFailure => .error .other

/-- Modelled from the spec: the querying crate's target module is not present
under src (only the sibling main crate's target.rs is); per the spec,
"resolution produces an ordered sequence of addresses" and is the "identity
for literal IPs", so a domain target resolves through the resolver and an IP
literal resolves to itself. -/
def Target.resolve (dns : String → DnsOutcome) : Target → Except ResolveErr (List Addr)
  | .domain d => lookupIps dns d
  | .ipv4 a => .ok [a]
  | .ipv6 a => .ok [a]

inductive CheckVerdict
  | clear
  | blocked (rknDomain : Option String) (rknSubnets : List IpNet)
      (cdnProviderSubnets : List (String × NetworkRecord))
  deriving DecidableEq

structure CheckEnv (γ : Type) where
  dns : String → DnsOutcome
  geoLookup : Addr → Except Unit γ
  geoDefault : γ
  cdn : CdnList
  rkn : RuBlacklist

structure CheckRes (γ : Type) where
  verdict : CheckVerdict
  geo : γ
  ips : List Addr

/- The provider key used to group CDN matches:
   "{provider}" or "{provider} ({region})" when a region is present. -/
def providerLabel (r : NetworkRecord) : String :=
  match r.region with
  | none => r.provider
  | some region => r.provider ++ " (" ++ region ++ ")"

def cdnMatches (cdn : CdnList) (ips : List Addr) : List (String × NetworkRecord) :=
  ips.filterMap (fun ip => (cdn.contains ip).map (fun r => (providerLabel r, r)))

def rknMatches (bl : RuBlacklist) (ips : List Addr) : List IpNet :=
  ips.filterMap (fun ip => bl.containsIp ip)

def domainMatch (bl : RuBlacklist) : Target → Option String
  | .domain d => bl.containsDomain d
  | _ => none

/- The verdict match of Checker::check:
   (None, true, true) => Clear, anything else => Blocked. -/
def mkVerdict (domain : Option String) (cdn : List (String × NetworkRecord))
    (rkn : List IpNet) : CheckVerdict :=
  match domain, cdn.isEmpty, rkn.isEmpty with
  | none, true, true => .clear
  | d, _, _ => .blocked d rkn cdn

def Checker.check {γ : Type} (env : CheckEnv γ) (t : Target) : Except CheckErr (CheckRes γ) :=
  match Target.resolve env.dns t with
  | .error .nxDomain => .error .notFound
  | .error e => .error (.resolveError e)
  | .ok ips =>
    match (match ips.head? with
           | none => Except.ok env.geoDefault
           | some ip => env.geoLookup ip) with
    | .error _ => .error .geoIpError
    | .ok geo =>
      .ok ⟨mkVerdict (domainMatch env.rkn t) (cdnMatches env.cdn ips) (rknMatches env.rkn ips),
           geo, ips⟩

theorem mkVerdict_cases (domain : Option String) (cdn : List (String × NetworkRecord))
    (rkn : List IpNet) :
    (mkVerdict domain cdn rkn = .clear ↔ domain = none ∧ cdn = [] ∧ rkn = []) ∧
    (mkVerdict domain cdn rkn = .clear ∨ mkVerdict domain cdn rkn = .blocked domain rkn cdn) := by
  cases domain <;> cases cdn <;> cases rkn <;> simp [mkVerdict]

/-- C1: whenever Checker::check succeeds, its verdict is Clear exactly when
the domain-blacklist match is None, the accumulated CDN provider matches are
empty and the accumulated RKN subnet matches are empty; otherwise the verdict
is Blocked carrying exactly those three computed evidence fields. -/
theorem check_verdict_iff {γ : Type} (env : CheckEnv γ) (t : Target) (res : CheckRes γ)
    (h : Checker.check env t = .ok res) :
    (res.verdict = .clear ↔
      domainMatch env.rkn t = none ∧ cdnMatches env.cdn res.ips = [] ∧
        rknMatches env.rkn res.ips = [])
    ∧ (res.verdict = .clear ∨
       res.verdict = .blocked (domainMatch env.rkn t) (rknMatches env.rkn res.ips)
         (cdnMatches env.cdn res.ips)) := by
  unfold Checker.check at h
  cases hres : Target.resolve env.dns t with
  | error e =>
    rw [hres] at h
    cases e <;> (dsimp only at h; cases h)
  | ok ips =>
    rw [hres] at h
    dsimp only at h
    cases hgeo : (match ips.head? with
                  | none => Except.ok env.geoDefault
                  | some ip => env.geoLookup ip) with
    | error u => rw [hgeo] at h; cases h
    | ok geo =>
      rw [hgeo] at h
      cases h
      exact mkVerdict_cases (domainMatch env.rkn t) (cdnMatches env.cdn ips) (rknMatches env.rkn ips)

def c1EnvW : CheckEnv Nat :=
  ⟨fun _ => .noRecords, fun _ => .ok 0, 0, ⟨[]⟩, ⟨[], [], 0⟩⟩

def c1ResW : CheckRes Nat := ⟨.clear, 0, [[]]⟩

/-- C1 witness: on a concrete environment with empty datasets, check of an IP
literal succeeds with a Clear verdict satisfying the characterization. -/
theorem check_verdict_iff_witness :
    Checker.check c1EnvW (Target.ipv4 []) = .ok c1ResW ∧
    ((c1ResW.verdict = .clear ↔
      domainMatch c1EnvW.rkn (Target.ipv4 []) = none ∧
        cdnMatches c1EnvW.cdn c1ResW.ips = [] ∧ rknMatches c1EnvW.rkn c1ResW.ips = [])
    ∧ (c1ResW.verdict = .clear ∨
       c1ResW.verdict = .blocked (domainMatch c1EnvW.rkn (Target.ipv4 []))
         (rknMatches c1EnvW.rkn c1ResW.ips) (cdnMatches c1EnvW.cdn c1ResW.ips))) :=
  ⟨rfl, check_verdict_iff c1EnvW (Target.ipv4 []) c1ResW rfl⟩

/-- C7: a domain target whose DNS resolution reports no records makes
Checker::check fail with the NotFound error, while any other resolver failure
propagates as a ResolveError, a constructor distinct from NotFound. -/
theorem check_notfound_vs_resolve_error {γ : Type} (env : CheckEnv γ) (d : String) :
    (env.dns d = .noRecords → Checker.check env (.domain d) = .error .notFound)
    ∧ (env.dns d = .otherFailure →
        Checker.check env (.domain d) = .error (.resolveError .other))
    ∧ CheckErr.resolveError .other ≠ CheckErr.notFound := by
  refine ⟨?_, ?_, by simp⟩
  · intro hdns
    unfold Checker.check Target.resolve lookupIps
    dsimp only
    rw [hdns]
  · intro hdns
    unfold Checker.check Target.resolve lookupIps
    dsimp only
    rw [hdns]

def c7EnvW : CheckEnv Nat :=
  ⟨fun _ => .noRecords, fun _ => .ok 0, 0, ⟨[]⟩, ⟨[], [], 0⟩⟩

/-- C7 witness: a concrete environment whose resolver reports no records for
every name; check of a domain fails with NotFound. -/
theorem check_notfound_witness :
    c7EnvW.dns "cheburcheck.ru" = DnsOutcome.noRecords ∧
    Checker.check c7EnvW (Target.domain "cheburcheck.ru") = .error .notFound :=
  ⟨rfl, (check_notfound_vs_resolve_error c7EnvW "cheburcheck.ru").1 rfl⟩

/- ===== GeoIp (querying/src/geoip.rs) =====

   GeoIp::update builds each reader with Reader::from_source(bytes)? and
   assigns the three readers one at a time: self.asn first, then
   self.country, then self.city.  The `?` propagates a construction
   failure before the corresponding assignment, but assignments already
   performed stay in place.  An input standing at `none` models bytes on
   which from_source fails; `some r` models the successfully constructed
   reader. -/

structure GeoIp (ρ : Type) where
  asn : Option ρ
  country : Option ρ
  city : Option ρ
  deriving DecidableEq

def GeoIp.update {ρ : Type} (st : GeoIp ρ) (asn country city : Option ρ) :
    GeoIp ρ × Bool :=
  match asn with
  | none => (st, false)
  | some a =>
    match country with
    | none => (⟨some a, st.country, st.city⟩, false)
    | some c =>
      match city with
      | none => (⟨some a, some c, st.city⟩, false)
      | some ci => (⟨some a, some c, some ci⟩, true)

/-- C6 counterexample: a RuBlacklist::update that fails while reading the
domain lines has already replaced the IP trie, and a GeoIp::update that fails
on the country database has already replaced the ASN reader — the previously
installed dataset state is not retained unchanged. -/
theorem update_failure_retention_counterexample :
    ((RuBlacklist.update ⟨[(⟨[true], 32⟩, ())], [], 0⟩ [some ⟨[false], 32⟩] [none]).2 = false ∧
     (RuBlacklist.update ⟨[(⟨[true], 32⟩, ())], [], 0⟩ [some ⟨[false], 32⟩] [none]).1.ipTrie ≠
       [(⟨[true], 32⟩, ())])
    ∧ ((GeoIp.update (⟨some 1, some 1, some 1⟩ : GeoIp Nat) (some 2) none none).2 = false ∧
       (GeoIp.update (⟨some 1, some 1, some 1⟩ : GeoIp Nat) (some 2) none none).1.asn ≠ some 1) := by
  decide

/-- C6 amended: each live structure is only ever assigned a fully built
replacement, CdnList::update failing at any row leaves its whole state
unchanged, and RuBlacklist::update failing on an IP line leaves its whole
state unchanged; but RuBlacklist::update failing on a domain line retains
only the domain trie and domain count, with the IP trie already replaced,
and GeoIp::update retains only the readers from the failing database
onwards, with the readers assigned before the failure already replaced. -/
theorem update_failure_retention {ρ : Type} :
    (∀ (st : CdnList) (rows : List (Option NetworkRecord)),
      (CdnList.update st rows).2 = false → (CdnList.update st rows).1 = st)
    ∧ (∀ (st : RuBlacklist) (ipLines : List (Option IpNet))
        (domainLines : List (Option String)),
        seqOpts ipLines = none → RuBlacklist.update st ipLines domainLines = (st, false))
    ∧ (∀ (st : RuBlacklist) (nets : List IpNet) (domainLines : List (Option String)),
        seqOpts domainLines = none →
        RuBlacklist.update st (nets.map some) domainLines =
          (⟨ipTrieOf nets, st.domainTrie, st.domainCount⟩, false))
    ∧ (∀ (st : GeoIp ρ) (country city : Option ρ),
        GeoIp.update st none country city = (st, false))
    ∧ (∀ (st : GeoIp ρ) (a : ρ) (city : Option ρ),
        GeoIp.update st (some a) none city = (⟨some a, st.country, st.city⟩, false))
    ∧ (∀ (st : GeoIp ρ) (a c : ρ),
        GeoIp.update st (some a) (some c) none = (⟨some a, some c, st.city⟩, false)) := by
  refine ⟨?_, ?_, ?_, fun st country city => rfl, fun st a city => rfl, fun st a c => rfl⟩
  · intro st rows hfail
    unfold CdnList.update at hfail ⊢
    cases h : seqOpts rows with
    | none => rfl
    | some recs => rw [h] at hfail; cases hfail
  · intro st ipLines domainLines hip
    unfold RuBlacklist.update
    rw [hip]
  · intro st nets domainLines hdom
    unfold RuBlacklist.update
    rw [seqOpts_map_some, hdom]

/-- C6 amended witness: a concrete RuBlacklist with a nonzero domain count;
an update whose domain lines fail keeps the old domain state but installs
the freshly built IP trie. -/
theorem update_failure_retention_witness :
    seqOpts [(none : Option String)] = none ∧
    RuBlacklist.update ⟨[], [], 7⟩ ([(⟨[true], 32⟩ : IpNet)].map some) [none] =
      (⟨ipTrieOf [⟨[true], 32⟩], [], 7⟩, false) :=
  ⟨rfl, (@update_failure_retention Nat).2.2.1 ⟨[], [], 7⟩ [⟨[true], 32⟩] [none] rfl⟩
